import Mathlib

/-!
# Struct-field validator

A shallow embedding of `validator.go`: the entry point `Validate`, the three
per-kind evaluators `validateFieldString`, `validateFieldInt` and
`validateFieldSlice`, and the rendering `ValidationErrors.Error`.

Conventions of the embedding:

* a Go `string` is its sequence of bytes (`GoString`), so `len` is the byte count;
* a Go `int` / `int64` is an `Int`; the only place where the machine width is
  observable is `strconv.Atoi`, which rejects numerals outside the `int` range;
* a function that may panic returns `Except Panic _`; a Go `error` result is an
  `Option` (`none` is `nil`);
* the record handed to `Validate` is what `reflect` shows of it: for every field,
  in declaration order, whether it is exported, the value of its `validate` tag,
  and its value.
-/

namespace Validator

/-! ## Strings and the standard-library functions used by the validator -/

/-- A Go string: an immutable sequence of bytes. -/
abbrev GoString := List UInt8

/-- The bytes of a string literal of the Go source text (UTF-8). -/
def str (s : String) : GoString := s.toUTF8.data.toList

/-- The byte `,`. -/
def comma : UInt8 := 44

/-- The byte `:`. -/
def colon : UInt8 := 58

/-- The builtin `len` on a string: its number of bytes, as an `int`. -/
def len (s : GoString) : Int := (s.length : Int)

/-- The Go function `strings.Split(s, sep)` for a one-byte separator `sep` (both
call sites of the validator pass one): the pieces of `s` between consecutive
occurrences of `sep`; a string without `sep`, the empty string included, gives
the one-element list holding `s`. -/
def Split : GoString → UInt8 → List GoString
  | [], _ => [[]]
  | c :: cs, sep =>
    if c = sep then [] :: Split cs sep
    else
      match Split cs sep with
      | [] => [[c]]
      | p :: ps => (c :: p) :: ps

/-- The Go function `strings.Join(elems, sep)`. -/
def Join : List GoString → GoString → GoString
  | [], _ => []
  | [a], _ => a
  | a :: b :: rest, sep => a ++ sep ++ Join (b :: rest) sep

/-- Width of the Go type `int` on the 64-bit platforms. -/
def intSize : Nat := 64

/-- The largest value of type `int`. -/
def maxInt : Int := 2 ^ (intSize - 1) - 1

/-- The smallest value of type `int`. -/
def minInt : Int := -(2 ^ (intSize - 1))

/-- Value of a decimal digit byte, `none` for any other byte. -/
def digitVal (c : UInt8) : Option Nat :=
  if 48 ≤ c.toNat ∧ c.toNat ≤ 57 then some (c.toNat - 48) else none

/-- Reads a run of decimal digits, most significant first, onto `acc`; `none`
as soon as a byte is not a digit. -/
def parseDigits : GoString → Nat → Option Nat
  | [], acc => some acc
  | c :: cs, acc =>
    match digitVal c with
    | none => none
    | some d => parseDigits cs (acc * 10 + d)

/-- The Go function `strconv.Atoi`, with `none` for a non-nil `err`: an optional
sign `+` or `-`, then at least one decimal digit and nothing else, and the value
has to fit the type `int`. -/
def Atoi (s : GoString) : Option Int :=
  let neg : Bool := s.head? = some 45
  let digits : GoString := if s.head? = some 45 ∨ s.head? = some 43 then s.tail else s
  if digits = [] then none
  else
    match parseDigits digits 0 with
    | none => none
    | some un =>
      let n : Int := if neg then -(un : Int) else (un : Int)
      if minInt ≤ n ∧ n ≤ maxInt then some n else none

/-- The byte of the decimal digit `d`. -/
def digitByte (d : Nat) : UInt8 := UInt8.ofNat (48 + d)

/-- A byte that may occur in a decimal numeral: a digit or the minus sign. -/
def numeralByte (c : UInt8) : Prop := c = 45 ∨ ∃ d, d < 10 ∧ c = digitByte d

/-- Decimal digits of `n` put in front of `acc`, least significant digit first
produced; `fuel` bounds the number of digits. -/
def formatNatAux : Nat → Nat → GoString → GoString
  | 0, _, acc => acc
  | fuel + 1, n, acc =>
    if n / 10 = 0 then digitByte (n % 10) :: acc
    else formatNatAux fuel (n / 10) (digitByte (n % 10) :: acc)

/-- Decimal numeral of a natural number. -/
def formatNat (n : Nat) : GoString := formatNatAux (n + 1) n []

/-- The verb `%d` of `fmt.Sprintf` on an integer: its decimal numeral, with a
leading `-` when negative. -/
def formatInt (n : Int) : GoString :=
  if n < 0 then 45 :: formatNat n.natAbs else formatNat n.natAbs

/-- The verb `%v` of `fmt.Sprintf` on a `[]string`: the elements separated by one
space, inside square brackets. -/
def formatStrings (elems : List GoString) : GoString :=
  str "[" ++ Join elems (str " ") ++ str "]"

/-! ## Errors and panics -/

/-- The error values that are not collections: the three package-level
variables and the values made by `errors.New(msg)` inside the evaluators. -/
inductive BaseError where
  | ErrNotStruct
  | ErrInvalidValidatorSyntax
  | ErrValidateForUnexportedFields
  | New (msg : GoString)
  deriving DecidableEq, Repr

/-- The method `Error()` of a non-collection error: its message. -/
def BaseError.Error : BaseError → GoString
  | .ErrNotStruct => str "wrong argument given, should be a struct"
  | .ErrInvalidValidatorSyntax => str "invalid validator syntax"
  | .ErrValidateForUnexportedFields => str "validation for unexported field is not allowed"
  | .New msg => msg

/-- The Go type `ValidationError`. -/
structure ValidationError where
  Err : BaseError
  deriving DecidableEq, Repr

/-- The Go type `ValidationErrors`. -/
abbrev ValidationErrors := List ValidationError

/-- The method `ValidationErrors.Error()`. -/
def ValidationErrors.Error (v : ValidationErrors) : GoString :=
  if v = [] then []
  else Join (v.map (fun err => err.Err.Error)) (str "\n")

/-- A non-nil value of the interface `error` as `Validate` returns it: a plain
error or a collection. -/
inductive Error where
  | base (e : BaseError)
  | errs (v : ValidationErrors)
  deriving DecidableEq, Repr

/-- A panic: the run-time error of an index expression out of range, or a
`panic(msg)` raised by the validator with a string. -/
inductive Panic where
  | indexOutOfRange (index length : Nat)
  | message (msg : GoString)
  deriving DecidableEq, Repr

/-- The index expression `parts[i]`, which panics when `i` is out of range. -/
def index (parts : List GoString) (i : Nat) : Except Panic GoString :=
  match parts.get? i with
  | some p => .ok p
  | none => .error (.indexOutOfRange i parts.length)

instance instDecidableEqExcept {ε α : Type} [DecidableEq ε] [DecidableEq α] :
    DecidableEq (Except ε α)
  | .ok a, .ok b =>
    if h : a = b then isTrue (by rw [h]) else isFalse (fun h2 => h (Except.ok.inj h2))
  | .error a, .error b =>
    if h : a = b then isTrue (by rw [h]) else isFalse (fun h2 => h (Except.error.inj h2))
  | .ok _, .error _ => isFalse (fun h => Except.noConfusion h)
  | .error _, .ok _ => isFalse (fun h => Except.noConfusion h)

/-! ## The values seen through `reflect` -/

/-- The Go type `reflect.Kind`. -/
inductive Kind where
  | Invalid | Bool | Int | Int8 | Int16 | Int32 | Int64
  | Uint | Uint8 | Uint16 | Uint32 | Uint64 | Uintptr
  | Float32 | Float64 | Complex64 | Complex128
  | Array | Chan | Func | Interface | Map | Pointer | Slice | String | Struct
  | UnsafePointer
  deriving DecidableEq, Repr

/-- The method `String()` of `reflect.Kind`: the name of the kind. -/
def Kind.name : Kind → GoString
  | .Invalid => str "invalid"
  | .Bool => str "bool"
  | .Int => str "int"
  | .Int8 => str "int8"
  | .Int16 => str "int16"
  | .Int32 => str "int32"
  | .Int64 => str "int64"
  | .Uint => str "uint"
  | .Uint8 => str "uint8"
  | .Uint16 => str "uint16"
  | .Uint32 => str "uint32"
  | .Uint64 => str "uint64"
  | .Uintptr => str "uintptr"
  | .Float32 => str "float32"
  | .Float64 => str "float64"
  | .Complex64 => str "complex64"
  | .Complex128 => str "complex128"
  | .Array => str "array"
  | .Chan => str "chan"
  | .Func => str "func"
  | .Interface => str "interface"
  | .Map => str "map"
  | .Pointer => str "ptr"
  | .Slice => str "slice"
  | .String => str "string"
  | .Struct => str "struct"
  | .UnsafePointer => str "unsafe.Pointer"

/-- The kinds whose values the validator never looks into. -/
inductive OtherKind where
  | Invalid | Bool | Int8 | Int16 | Int32 | Int64
  | Uint | Uint8 | Uint16 | Uint32 | Uint64 | Uintptr
  | Float32 | Float64 | Complex64 | Complex128
  | Array | Chan | Func | Interface | Map | UnsafePointer
  deriving DecidableEq, Repr

/-- The `reflect.Kind` named by an `OtherKind`. -/
def OtherKind.toKind : OtherKind → Kind
  | .Invalid => .Invalid
  | .Bool => .Bool
  | .Int8 => .Int8
  | .Int16 => .Int16
  | .Int32 => .Int32
  | .Int64 => .Int64
  | .Uint => .Uint
  | .Uint8 => .Uint8
  | .Uint16 => .Uint16
  | .Uint32 => .Uint32
  | .Uint64 => .Uint64
  | .Uintptr => .Uintptr
  | .Float32 => .Float32
  | .Float64 => .Float64
  | .Complex64 => .Complex64
  | .Complex128 => .Complex128
  | .Array => .Array
  | .Chan => .Chan
  | .Func => .Func
  | .Interface => .Interface
  | .Map => .Map
  | .UnsafePointer => .UnsafePointer

/-- What `reflect` reports of a struct field's type that the validator reads:
`IsExported()` and `Tag.Get("validate")`. -/
structure StructField where
  IsExported : Bool
  validateTag : GoString
  deriving DecidableEq, Repr

/-- A Go value as `reflect.ValueOf` presents it. A string and an `int` carry
their content, a slice its elements, a struct its fields in declaration order,
a pointer its target (`none` for a nil pointer); a value of any other kind
(the nil interface has kind `Invalid`) carries only its kind. -/
inductive Value where
  | String (s : GoString)
  | Int (n : Int)
  | Slice (elems : List Value)
  | Struct (fields : List (StructField × Value))
  | Pointer (elem : Option Value)
  | Other (k : OtherKind)

/-- The method `Value.Kind()`. -/
def Value.Kind : Value → Kind
  | .String _ => .String
  | .Int _ => .Int
  | .Slice _ => .Slice
  | .Struct _ => .Struct
  | .Pointer _ => .Pointer
  | .Other k => k.toKind

/-! ## The evaluators -/

/-- The body of the `for` loop of `validateFieldString` over the checks of the
rule string that are left. -/
def validateFieldString.loop (fieldValue : GoString) :
    List GoString → Except Panic (Option BaseError)
  | [] => .ok none
  | v :: rest =>
    let parts := Split v colon
    match index parts 0 with
    | .error p => .error p
    | .ok validator =>
      if validator = str "len" then
        match index parts 1 with
        | .error p => .error p
        | .ok arg =>
          match Atoi arg with
          | none => .ok (some .ErrInvalidValidatorSyntax)
          | some expectedLen =>
            if len fieldValue ≠ expectedLen then
              .ok (some (.New (str "expected string of length " ++ formatInt expectedLen
                ++ str ", go string of length " ++ formatInt (len fieldValue))))
            else validateFieldString.loop fieldValue rest
      else if validator = str "min" then
        match index parts 1 with
        | .error p => .error p
        | .ok arg =>
          match Atoi arg with
          | none => .ok (some .ErrInvalidValidatorSyntax)
          | some expectedMin =>
            if len fieldValue < expectedMin then
              .ok (some (.New (str "string of length " ++ formatInt (len fieldValue)
                ++ str " less than expected min " ++ formatInt expectedMin)))
            else validateFieldString.loop fieldValue rest
      else if validator = str "max" then
        match index parts 1 with
        | .error p => .error p
        | .ok arg =>
          match Atoi arg with
          | none => .ok (some .ErrInvalidValidatorSyntax)
          | some expectedMax =>
            if len fieldValue > expectedMax then
              .ok (some (.New (str "string of length " ++ formatInt (len fieldValue)
                ++ str " greater than expected max " ++ formatInt expectedMax)))
            else validateFieldString.loop fieldValue rest
      else if validator = str "in" then
        match index parts 1 with
        | .error p => .error p
        | .ok arg =>
          let inValues : List GoString := if len arg = 0 then [] else Split arg comma
          if fieldValue ∈ inValues then .ok none
          else
            .ok (some (.New (str "value " ++ fieldValue ++ str " not found in "
              ++ formatStrings inValues)))
      else .error (.message (str "unsupported validator type " ++ validator))

/-- The Go function `validateFieldString`. -/
def validateFieldString (fieldValue : GoString) (tagValue : GoString) :
    Except Panic (Option BaseError) :=
  validateFieldString.loop fieldValue (Split tagValue comma)

/-- The `for` loop of the case `in` of `validateFieldInt` over the candidates
that are left; `notFound` is the error returned after the loop. -/
def validateFieldInt.inLoop (fieldValue : Int) (notFound : BaseError) :
    List GoString → Option BaseError
  | [] => some notFound
  | v :: rest =>
    match Atoi v with
    | none => some .ErrInvalidValidatorSyntax
    | some vInt => if vInt = fieldValue then none else validateFieldInt.inLoop fieldValue notFound rest

/-- The Go function `validateFieldInt`. -/
def validateFieldInt (fieldValue : Int) (tagValue : GoString) :
    Except Panic (Option BaseError) :=
  let parts := Split tagValue colon
  match index parts 0 with
  | .error p => .error p
  | .ok validator =>
    if validator = str "min" then
      match index parts 1 with
      | .error p => .error p
      | .ok arg =>
        match Atoi arg with
        | none => .ok (some .ErrInvalidValidatorSyntax)
        | some expectedMin =>
          if fieldValue < expectedMin then
            .ok (some (.New (str "field value " ++ formatInt fieldValue
              ++ str " less than expected min " ++ formatInt expectedMin)))
          else .ok none
    else if validator = str "max" then
      match index parts 1 with
      | .error p => .error p
      | .ok arg =>
        match Atoi arg with
        | none => .ok (some .ErrInvalidValidatorSyntax)
        | some expectedMax =>
          if fieldValue > expectedMax then
            .ok (some (.New (str "field value " ++ formatInt fieldValue
              ++ str " greater than expected max " ++ formatInt expectedMax)))
          else .ok none
    else if validator = str "in" then
      match index parts 1 with
      | .error p => .error p
      | .ok arg =>
        let inValues := Split arg comma
        .ok (validateFieldInt.inLoop fieldValue
          (.New (str "value " ++ formatInt fieldValue ++ str " not found in "
            ++ formatStrings inValues)) inValues)
    else .error (.message (str "unsupported validator type " ++ validator))

/-- The Go function `validateFieldSlice`, on the elements of the slice. -/
def validateFieldSlice : List Value → GoString → Except Panic (Option BaseError)
  | [], _ => .ok none
  | sliceElem :: rest, tagValue =>
    let err : Except Panic (Option BaseError) :=
      match sliceElem with
      | .String s => validateFieldString s tagValue
      | .Int n => validateFieldInt n tagValue
      | _ => .ok none
    match err with
    | .error p => .error p
    | .ok (some e) => .ok (some e)
    | .ok none => validateFieldSlice rest tagValue

/-- The `switch` on the kind of a field inside `Validate`: the value it assigns
to `fieldErr`, or the panic it raises. -/
def fieldErr (fieldValue : Value) (tagValue : GoString) : Except Panic (Option BaseError) :=
  match fieldValue with
  | .String s => validateFieldString s tagValue
  | .Int n => validateFieldInt n tagValue
  | .Slice elems => validateFieldSlice elems tagValue
  | other => .error (.message (str "unsupported field type " ++ other.Kind.name))

/-- The `for` loop of `Validate` over the fields that are left, `errs` being the
collection gathered so far; the result is the collection when the loop ends. -/
def Validate.loop : List (StructField × Value) → ValidationErrors → Except Panic ValidationErrors
  | [], errs => .ok errs
  | (fieldType, fieldValue) :: rest, errs =>
    if fieldType.validateTag = [] then Validate.loop rest errs
    else if !fieldType.IsExported then
      .ok (errs ++ [ValidationError.mk .ErrValidateForUnexportedFields])
    else
      match fieldErr fieldValue fieldType.validateTag with
      | .error p => .error p
      | .ok (some e) => Validate.loop rest (errs ++ [ValidationError.mk e])
      | .ok none => Validate.loop rest errs

/-- The Go function `Validate`. -/
def Validate (v : Value) : Except Panic (Option Error) :=
  match v with
  | .Struct fields =>
    match Validate.loop fields [] with
    | .error p => .error p
    | .ok errs => if errs.length > 0 then .ok (some (.errs errs)) else .ok none
  | _ => .ok (some (.base .ErrNotStruct))

/-- The `switch` on the kind of an element inside `validateFieldSlice`: the
value it assigns to `err`, or the panic raised by the element evaluator. An
element that is neither a string nor an `int` leaves `err` nil. -/
def sliceElemErr (sliceElem : Value) (tagValue : GoString) : Except Panic (Option BaseError) :=
  match sliceElem with
  | .String s => validateFieldString s tagValue
  | .Int n => validateFieldInt n tagValue
  | _ => .ok none

/-- A check of the text evaluator that passes on `fieldValue`: `len:N`, `min:N`
or `max:N`, with `N` of type `int` written in decimal, whose bound the byte
count of the value meets. -/
def passingCheck (fieldValue : GoString) (t : GoString) : Prop :=
  ∃ N : Int, (minInt ≤ N ∧ N ≤ maxInt)
    ∧ ((t = str "len:" ++ formatInt N ∧ len fieldValue = N)
      ∨ (t = str "min:" ++ formatInt N ∧ N ≤ len fieldValue)
      ∨ (t = str "max:" ++ formatInt N ∧ len fieldValue ≤ N))

/-! ## The contract of `Validate` in the words of the specification -/

/-- Whether a call returns, that is, raises no fatal fault. -/
def returns {α : Type} (r : Except Panic α) : Bool :=
  match r with
  | .ok _ => true
  | .error _ => false

/-- A field that lets the loop of `Validate` go on: it has no rule string, or it
is exported, of a supported kind, and its evaluation raises no fatal fault. -/
def passable (f : StructField × Value) : Prop :=
  f.1.validateTag = [] ∨ (f.1.IsExported = true ∧ returns (fieldErr f.2 f.1.validateTag) = true)

instance instDecidablePassable (f : StructField × Value) : Decidable (passable f) :=
  inferInstanceAs (Decidable (_ ∨ _))

/-- The violations reported by the per-field evaluators for the rule-bearing
fields, in field declaration order; a field with an empty rule string
contributes nothing. -/
def reportedViolations (fields : List (StructField × Value)) : ValidationErrors :=
  fields.filterMap (fun f =>
    if f.1.validateTag = [] then none
    else
      match fieldErr f.2 f.1.validateTag with
      | .ok (some e) => some (ValidationError.mk e)
      | _ => none)

/-! ## Sample records -/

/-- A record with a failing text field, an unexported field of kind `float64`
without rule, a passing number field and a failing number field. -/
def sampleRecord : List (StructField × Value) :=
  [ (StructField.mk true (str "len:4"), .String (str "Bob")),
    (StructField.mk false [], .Other .Float64),
    (StructField.mk true (str "min:18"), .Int 20),
    (StructField.mk true (str "in:1,2,3"), .Int 9) ]

/-- A record of one exported field of kind `float64` that carries a rule: its
evaluation raises the fault `unsupported field type float64`. -/
def faultyRecord : List (StructField × Value) :=
  [ (StructField.mk true (str "min:1"), .Other .Float64) ]

/-- An unexported text field with rule `len:1`. -/
def unexportedField : StructField × Value :=
  (StructField.mk false (str "len:1"), .String (str "x"))

/-- An exported number field with rule `min:abc` and value 0. -/
def malformedField : StructField × Value :=
  (StructField.mk true (str "min:abc"), .Int 0)

/-- A list of names: the second one fails rule `len:4`, and after it come a
name that would fail too and a number, on which the rule would raise a fatal
fault. -/
def sampleNames : List Value :=
  [.String (str "Anna"), .String (str "Bob"), .String (str "Al"), .Int 5]

/-! ## Facts about the standard-library functions -/

theorem Split_ne_nil (s : GoString) (sep : UInt8) : Split s sep ≠ [] := by
  cases s with
  | nil => simp [Split]
  | cons c cs =>
    unfold Split
    split
    · simp
    · split <;> simp

theorem Split_of_not_mem {s : GoString} {sep : UInt8} (h : sep ∉ s) : Split s sep = [s] := by
  induction s with
  | nil => rfl
  | cons c cs ih =>
    have hc : ¬ c = sep := fun e => h (by simp [e])
    have hcs : sep ∉ cs := fun e => h (List.mem_cons_of_mem _ e)
    rw [Split, if_neg hc, ih hcs]

theorem Split_append_sep {a : GoString} {sep : UInt8} (b : GoString) (h : sep ∉ a) :
    Split (a ++ sep :: b) sep = a :: Split b sep := by
  induction a with
  | nil => simp [Split]
  | cons c cs ih =>
    have hc : ¬ c = sep := fun e => h (by simp [e])
    have hcs : sep ∉ cs := fun e => h (List.mem_cons_of_mem _ e)
    rw [List.cons_append, Split, if_neg hc, ih hcs]

theorem index_zero_cons (p : GoString) (ps : List GoString) : index (p :: ps) 0 = .ok p := rfl

theorem index_one_cons (p q : GoString) (ps : List GoString) :
    index (p :: q :: ps) 1 = .ok q := rfl

theorem digitByte_cases {d : Nat} (h : d < 10) :
    digitVal (digitByte d) = some d ∧ digitByte d ≠ comma ∧ digitByte d ≠ colon
      ∧ digitByte d ≠ 45 ∧ digitByte d ≠ 43 := by
  interval_cases d <;> decide

theorem numeralByte_ne {c : UInt8} (h : numeralByte c) : c ≠ comma ∧ c ≠ colon := by
  rcases h with rfl | ⟨d, hd, rfl⟩
  · decide
  · exact ⟨(digitByte_cases hd).2.1, (digitByte_cases hd).2.2.1⟩

theorem formatNatAux_mem (fuel : Nat) : ∀ (n : Nat) (acc : GoString) (c : UInt8),
    c ∈ formatNatAux fuel n acc → (∃ d, d < 10 ∧ c = digitByte d) ∨ c ∈ acc := by
  induction fuel with
  | zero => intro n acc c h; exact Or.inr h
  | succ fuel ih =>
    intro n acc c h
    have hlt : n % 10 < 10 := Nat.mod_lt _ (by decide)
    rw [formatNatAux] at h
    split at h
    · rcases List.mem_cons.mp h with rfl | h
      · exact Or.inl ⟨_, hlt, rfl⟩
      · exact Or.inr h
    · rcases ih _ _ _ h with h | h
      · exact Or.inl h
      · rcases List.mem_cons.mp h with rfl | h
        · exact Or.inl ⟨_, hlt, rfl⟩
        · exact Or.inr h

theorem formatNat_mem {n : Nat} {c : UInt8} (h : c ∈ formatNat n) :
    ∃ d, d < 10 ∧ c = digitByte d := by
  rcases formatNatAux_mem _ _ _ _ h with h | h
  · exact h
  · simp at h

theorem parseDigits_formatNatAux (fuel : Nat) : ∀ (n : Nat) (acc : GoString), n < fuel →
    parseDigits (formatNatAux fuel n acc) 0 = parseDigits acc n := by
  induction fuel with
  | zero => intro n acc h; omega
  | succ fuel ih =>
    intro n acc h
    have hlt : n % 10 < 10 := Nat.mod_lt _ (by decide)
    rw [formatNatAux]
    split
    · rename_i h0
      have : n % 10 = n := by omega
      simp only [parseDigits, (digitByte_cases hlt).1]
      congr 1
      omega
    · rename_i h0
      rw [ih _ _ (by omega)]
      simp only [parseDigits, (digitByte_cases hlt).1]
      congr 1
      omega

theorem parseDigits_formatNat (n : Nat) : parseDigits (formatNat n) 0 = some n := by
  rw [formatNat, parseDigits_formatNatAux _ _ _ (Nat.lt_succ_self n)]
  rfl

theorem formatNat_ne_nil (n : Nat) : formatNat n ≠ [] := by
  rw [formatNat, formatNatAux]
  split
  · simp
  · intro h
    have := parseDigits_formatNatAux n (n / 10) [digitByte (n % 10)] (by omega)
    rw [h] at this
    simp [parseDigits, (digitByte_cases (Nat.mod_lt n (by decide : 10 > 0))).1] at this
    omega

theorem formatInt_mem {n : Int} {c : UInt8} (h : c ∈ formatInt n) : numeralByte c := by
  unfold formatInt at h
  split at h
  · rcases List.mem_cons.mp h with rfl | h
    · exact Or.inl rfl
    · exact Or.inr (formatNat_mem h)
  · exact Or.inr (formatNat_mem h)

theorem comma_not_mem_formatInt (n : Int) : comma ∉ formatInt n :=
  fun h => (numeralByte_ne (formatInt_mem h)).1 rfl

theorem colon_not_mem_formatInt (n : Int) : colon ∉ formatInt n :=
  fun h => (numeralByte_ne (formatInt_mem h)).2 rfl

theorem formatNat_head (n : Nat) :
    (formatNat n).head? ≠ some 45 ∧ (formatNat n).head? ≠ some 43 := by
  cases hs : formatNat n with
  | nil => simp
  | cons c cs =>
    have hc : c ∈ formatNat n := by rw [hs]; simp
    obtain ⟨d, hd, rfl⟩ := formatNat_mem hc
    have := digitByte_cases hd
    simp only [List.head?_cons, ne_eq, Option.some.injEq]
    exact ⟨this.2.2.2.1, this.2.2.2.2⟩

theorem Atoi_formatInt {n : Int} (h1 : minInt ≤ n) (h2 : n ≤ maxInt) :
    Atoi (formatInt n) = some n := by
  unfold formatInt
  split
  · rename_i hneg
    generalize hm : n.natAbs = m
    have hn : n = -(m : Int) := by omega
    subst hn
    simp [Atoi, formatNat_ne_nil, parseDigits_formatNat, h1, h2]
  · rename_i hpos
    have hn : ((n.natAbs : Nat) : Int) = n := by omega
    have hh := formatNat_head n.natAbs
    simp [Atoi, formatNat_ne_nil, parseDigits_formatNat, hn, h1, h2, hh.1, hh.2]

theorem parseDigits_eq_none {c : UInt8} (hc : digitVal c = none) :
    ∀ (s : GoString) (acc : Nat), c ∈ s → parseDigits s acc = none := by
  intro s
  induction s with
  | nil => intro acc h; simp at h
  | cons x xs ih =>
    intro acc h
    rw [parseDigits]
    rcases List.mem_cons.mp h with rfl | h
    · rw [hc]
    · cases digitVal x with
      | none => rfl
      | some d => exact ih _ h

theorem Atoi_eq_none_of_mem {c : UInt8} (hc : digitVal c = none) (h45 : c ≠ 45)
    (h43 : c ≠ 43) {s : GoString} (h : c ∈ s) : Atoi s = none := by
  have key : ∀ ds : GoString, c ∈ ds → parseDigits ds 0 = none :=
    fun ds hds => parseDigits_eq_none hc ds 0 hds
  cases s with
  | nil => simp at h
  | cons x xs =>
    unfold Atoi
    by_cases hx : x = 45 ∨ x = 43
    · have hxs : c ∈ xs := by
        rcases List.mem_cons.mp h with rfl | h
        · rcases hx with hx | hx
          · exact absurd hx h45
          · exact absurd hx h43
        · exact h
      simp [hx, key xs hxs]
    · have hx2 : ¬ (x = 45 ∨ x = 43) := hx
      simp [hx2, key (x :: xs) h]

theorem Atoi_eq_none_of_comma_mem {s : GoString} (h : comma ∈ s) : Atoi s = none :=
  Atoi_eq_none_of_mem (c := comma) (by decide) (by decide) (by decide) h

theorem Split_check {name arg : GoString} (hn : colon ∉ name) (ha : colon ∉ arg) :
    Split (name ++ colon :: arg) colon = [name, arg] := by
  rw [Split_append_sep arg hn, Split_of_not_mem ha]

/-! ## One check of the text evaluator -/

theorem loop_len (fieldValue arg : GoString) (rest : List GoString) (n : Int)
    (ha : colon ∉ arg) (hn : Atoi arg = some n) :
    validateFieldString.loop fieldValue ((str "len" ++ colon :: arg) :: rest) =
      if len fieldValue ≠ n then
        .ok (some (.New (str "expected string of length " ++ formatInt n
          ++ str ", go string of length " ++ formatInt (len fieldValue))))
      else validateFieldString.loop fieldValue rest := by
  rw [validateFieldString.loop]
  simp only [Split_check (by decide : colon ∉ str "len") ha, index_zero_cons, index_one_cons,
    if_true, hn]

theorem loop_min (fieldValue arg : GoString) (rest : List GoString) (n : Int)
    (ha : colon ∉ arg) (hn : Atoi arg = some n) :
    validateFieldString.loop fieldValue ((str "min" ++ colon :: arg) :: rest) =
      if len fieldValue < n then
        .ok (some (.New (str "string of length " ++ formatInt (len fieldValue)
          ++ str " less than expected min " ++ formatInt n)))
      else validateFieldString.loop fieldValue rest := by
  rw [validateFieldString.loop]
  simp only [Split_check (by decide : colon ∉ str "min") ha, index_zero_cons, index_one_cons,
    if_true, hn, if_neg (by decide : ¬ str "min" = str "len")]

theorem loop_max (fieldValue arg : GoString) (rest : List GoString) (n : Int)
    (ha : colon ∉ arg) (hn : Atoi arg = some n) :
    validateFieldString.loop fieldValue ((str "max" ++ colon :: arg) :: rest) =
      if len fieldValue > n then
        .ok (some (.New (str "string of length " ++ formatInt (len fieldValue)
          ++ str " greater than expected max " ++ formatInt n)))
      else validateFieldString.loop fieldValue rest := by
  rw [validateFieldString.loop]
  simp only [Split_check (by decide : colon ∉ str "max") ha, index_zero_cons, index_one_cons,
    if_true, hn, if_neg (by decide : ¬ str "max" = str "len"),
    if_neg (by decide : ¬ str "max" = str "min")]

/-! ## The text evaluator on the rules of the specification -/

/-- C3: for every text value and every integer `N` of type `int`, written in
decimal, the text evaluator on rule `len:N` reports a violation exactly when the
byte count of the value differs from `N`, and the violation then reads
`expected string of length N, go string of length L`, `L` being that count. -/
theorem validateFieldString_len (fieldValue : GoString) (N : Int)
    (hmin : minInt ≤ N) (hmax : N ≤ maxInt) :
    validateFieldString fieldValue (str "len:" ++ formatInt N) =
      .ok (if len fieldValue = N then none
        else some (.New (str "expected string of length " ++ formatInt N
          ++ str ", go string of length " ++ formatInt (len fieldValue)))) := by
  have hc : comma ∉ str "len:" ++ formatInt N := by
    intro h
    rcases List.mem_append.mp h with h | h
    · exact absurd h (by decide)
    · exact comma_not_mem_formatInt N h
  have hs : str "len:" ++ formatInt N = str "len" ++ colon :: formatInt N := rfl
  rw [validateFieldString, Split_of_not_mem hc, hs,
    loop_len fieldValue _ [] N (colon_not_mem_formatInt N) (Atoi_formatInt hmin hmax)]
  by_cases h : len fieldValue = N
  · simp [h, validateFieldString.loop]
  · simp [h]

/-- C3, the scenario of the specification: `len:4` accepts `Anna` and reports
`expected string of length 4, go string of length 3` on `Bob`. -/
theorem validateFieldString_len_witness :
    minInt ≤ 4 ∧ 4 ≤ maxInt
    ∧ validateFieldString (str "Anna") (str "len:4") = .ok none
    ∧ validateFieldString (str "Bob") (str "len:4") =
        .ok (some (.New (str "expected string of length 4, go string of length 3"))) :=
  ⟨by decide, by decide,
    validateFieldString_len (str "Anna") 4 (by decide) (by decide),
    validateFieldString_len (str "Bob") 4 (by decide) (by decide)⟩

theorem comma_not_mem_check {name : GoString} (hn : comma ∉ name) (N : Int) :
    comma ∉ name ++ colon :: formatInt N := by
  intro h
  rcases List.mem_append.mp h with h | h
  · exact hn h
  · rcases List.mem_cons.mp h with h | h
    · exact absurd h (by decide)
    · exact comma_not_mem_formatInt N h

/-- C4: for every text value and all integers `N`, `M` of type `int`, written in
decimal, the text evaluator on rule `min:N,max:M` reports no violation when the
byte count `L` of the value lies in `[N, M]`, and otherwise exactly one
violation, that of the first failing bound in rule order: `string of length L
less than expected min N` when `L < N`, else `string of length L greater than
expected max M`. -/
theorem validateFieldString_min_max (fieldValue : GoString) (N M : Int)
    (hN : minInt ≤ N ∧ N ≤ maxInt) (hM : minInt ≤ M ∧ M ≤ maxInt) :
    validateFieldString fieldValue (str "min:" ++ formatInt N ++ str ",max:" ++ formatInt M) =
      .ok (if len fieldValue < N then
          some (.New (str "string of length " ++ formatInt (len fieldValue)
            ++ str " less than expected min " ++ formatInt N))
        else if len fieldValue > M then
          some (.New (str "string of length " ++ formatInt (len fieldValue)
            ++ str " greater than expected max " ++ formatInt M))
        else none) := by
  have hs : str "min:" ++ formatInt N ++ str ",max:" ++ formatInt M
      = (str "min" ++ colon :: formatInt N) ++ comma :: (str "max" ++ colon :: formatInt M) := by
    have h1 : str "min:" = str "min" ++ [colon] := rfl
    have h2 : str ",max:" = comma :: (str "max" ++ [colon]) := rfl
    rw [h1, h2]
    simp only [List.append_assoc, List.cons_append, List.nil_append]
  rw [validateFieldString, hs, Split_append_sep _ (comma_not_mem_check (by decide) N),
    Split_of_not_mem (comma_not_mem_check (by decide) M),
    loop_min fieldValue _ _ N (colon_not_mem_formatInt N) (Atoi_formatInt hN.1 hN.2),
    loop_max fieldValue _ _ M (colon_not_mem_formatInt M) (Atoi_formatInt hM.1 hM.2)]
  by_cases h1 : len fieldValue < N
  · simp [h1]
  · by_cases h2 : len fieldValue > M
    · simp [h1, h2]
    · simp [h1, h2, validateFieldString.loop]

/-- C4 on rule `min:2,max:4`: `Anna` passes, `A` is too short, `Annabel` is too
long. -/
theorem validateFieldString_min_max_witness :
    (minInt ≤ 2 ∧ 2 ≤ maxInt) ∧ (minInt ≤ 4 ∧ 4 ≤ maxInt)
    ∧ validateFieldString (str "Anna") (str "min:2,max:4") = .ok none
    ∧ validateFieldString (str "A") (str "min:2,max:4") =
        .ok (some (.New (str "string of length 1 less than expected min 2")))
    ∧ validateFieldString (str "Annabel") (str "min:2,max:4") =
        .ok (some (.New (str "string of length 7 greater than expected max 4"))) :=
  ⟨by decide, by decide,
    validateFieldString_min_max (str "Anna") 2 4 (by decide) (by decide),
    validateFieldString_min_max (str "A") 2 4 (by decide) (by decide),
    validateFieldString_min_max (str "Annabel") 2 4 (by decide) (by decide)⟩

/-- C5, the code on the failing input: with rule `in:a,b` the value `b`, the
second candidate, gets a not-found violation that lists the first candidate only
(the value `a` passes). -/
theorem validateFieldString_in_second_candidate :
    validateFieldString (str "b") (str "in:a,b") =
        .ok (some (.New (str "value b not found in [a]")))
    ∧ validateFieldString (str "a") (str "in:a,b") = .ok none := by
  decide

/-! ## The number evaluator -/

theorem Split_head_append (a : GoString) (sep c : UInt8) (b : GoString) (h : sep ∉ a)
    (hc : c ≠ sep) : ∃ p ps, Split (a ++ c :: b) sep = (a ++ c :: p) :: ps := by
  induction a with
  | nil =>
    cases hb : Split b sep with
    | nil => exact absurd hb (Split_ne_nil b sep)
    | cons p ps => exact ⟨p, ps, by rw [List.nil_append, Split, if_neg hc, hb]; rfl⟩
  | cons x xs ih =>
    have hx : ¬ x = sep := fun e => h (by simp [e])
    obtain ⟨p, ps, hp⟩ := ih (fun e => h (List.mem_cons_of_mem _ e))
    exact ⟨p, ps, by rw [List.cons_append, Split, if_neg hx, hp]; rfl⟩

theorem validateFieldInt_min (fieldValue : Int) (arg : GoString) (rest : List GoString) :
    Split (str "min" ++ colon :: arg) colon = str "min" :: rest →
    ∀ a, rest.head? = some a →
    validateFieldInt fieldValue (str "min" ++ colon :: arg) =
      match Atoi a with
      | none => .ok (some .ErrInvalidValidatorSyntax)
      | some expectedMin =>
        if fieldValue < expectedMin then
          .ok (some (.New (str "field value " ++ formatInt fieldValue
            ++ str " less than expected min " ++ formatInt expectedMin)))
        else .ok none := by
  intro hs a ha
  cases rest with
  | nil => simp at ha
  | cons r rs =>
    simp only [List.head?_cons, Option.some.injEq] at ha
    subst ha
    rw [validateFieldInt]
    simp only [hs, index_zero_cons, index_one_cons, if_true]

theorem validateFieldInt_max (fieldValue : Int) (arg : GoString) (rest : List GoString) :
    Split (str "max" ++ colon :: arg) colon = str "max" :: rest →
    ∀ a, rest.head? = some a →
    validateFieldInt fieldValue (str "max" ++ colon :: arg) =
      match Atoi a with
      | none => .ok (some .ErrInvalidValidatorSyntax)
      | some expectedMax =>
        if fieldValue > expectedMax then
          .ok (some (.New (str "field value " ++ formatInt fieldValue
            ++ str " greater than expected max " ++ formatInt expectedMax)))
        else .ok none := by
  intro hs a ha
  cases rest with
  | nil => simp at ha
  | cons r rs =>
    simp only [List.head?_cons, Option.some.injEq] at ha
    subst ha
    rw [validateFieldInt]
    simp only [hs, index_zero_cons, index_one_cons, if_true,
      if_neg (by decide : ¬ str "max" = str "min")]

/-- C6, refuted as stated: on value 10 the rule `min:5,max:1` does not pass, it
yields `ErrInvalidValidatorSyntax`, while `min:5` alone passes; so the number
evaluator does not give on `c1,c2` the result it gives on `c1`. -/
theorem validateFieldInt_first_check_only_counterexample :
    validateFieldInt 10 (str "min:5,max:1") ≠ .ok none
    ∧ ¬ (∀ (fieldValue : Int) (c1 rest : GoString),
        validateFieldInt fieldValue (c1 ++ comma :: rest) = validateFieldInt fieldValue c1) := by
  refine ⟨by decide, fun h => ?_⟩
  have h1 := h 10 (str "min:5") (str "max:1")
  revert h1
  decide

/-- C6, amended: the number evaluator never splits the rule string on commas, so
the argument of the first check runs up to the next colon. For every integer
value, every integer `N` and every further text `rest`, the rules `min:N,rest`
and `max:N,rest` yield `ErrInvalidValidatorSyntax`: no later check is applied,
and the first one is not applied either. In particular `min:5,max:1` on 10
yields `ErrInvalidValidatorSyntax`. -/
theorem validateFieldInt_multi_check (fieldValue N : Int) (rest : GoString) :
    validateFieldInt fieldValue (str "min:" ++ formatInt N ++ comma :: rest) =
        .ok (some .ErrInvalidValidatorSyntax)
    ∧ validateFieldInt fieldValue (str "max:" ++ formatInt N ++ comma :: rest) =
        .ok (some .ErrInvalidValidatorSyntax)
    ∧ validateFieldInt 10 (str "min:5,max:1") = .ok (some .ErrInvalidValidatorSyntax) := by
  obtain ⟨p, ps, hp⟩ := Split_head_append (formatInt N) colon comma rest
    (colon_not_mem_formatInt N) (by decide)
  have hnone : Atoi (formatInt N ++ comma :: p) = none :=
    Atoi_eq_none_of_comma_mem (by simp)
  refine ⟨?_, ?_, by decide⟩
  · have hs : str "min:" ++ formatInt N ++ comma :: rest
        = str "min" ++ colon :: (formatInt N ++ comma :: rest) := by
      rw [show str "min:" = str "min" ++ [colon] from rfl]
      simp only [List.append_assoc, List.cons_append, List.nil_append]
    rw [hs, validateFieldInt_min fieldValue _ ((formatInt N ++ comma :: p) :: ps)
      (by rw [Split_append_sep _ (by decide : colon ∉ str "min"), hp]) _ rfl, hnone]
  · have hs : str "max:" ++ formatInt N ++ comma :: rest
        = str "max" ++ colon :: (formatInt N ++ comma :: rest) := by
      rw [show str "max:" = str "max" ++ [colon] from rfl]
      simp only [List.append_assoc, List.cons_append, List.nil_append]
    rw [hs, validateFieldInt_max fieldValue _ ((formatInt N ++ comma :: p) :: ps)
      (by rw [Split_append_sep _ (by decide : colon ∉ str "max"), hp]) _ rfl, hnone]

theorem mem_Join {c : UInt8} {sep : GoString} : ∀ (xs : List GoString),
    c ∈ Join xs sep → c ∈ sep ∨ ∃ x, x ∈ xs ∧ c ∈ x
  | [], h => by simp [Join] at h
  | [a], h => Or.inr ⟨a, by simp, by simpa [Join] using h⟩
  | a :: b :: rest, h => by
    rw [Join] at h
    rcases List.mem_append.mp h with h | h
    · rcases List.mem_append.mp h with h | h
      · exact Or.inr ⟨a, by simp, h⟩
      · exact Or.inl h
    · rcases mem_Join (b :: rest) h with h | ⟨x, hx, hc⟩
      · exact Or.inl h
      · exact Or.inr ⟨x, List.mem_cons_of_mem _ hx, hc⟩

theorem Split_Join_comma : ∀ (xs : List GoString), xs ≠ [] → (∀ x, x ∈ xs → comma ∉ x) →
    Split (Join xs (str ",")) comma = xs
  | [], h, _ => absurd rfl h
  | [a], _, hx => by
    rw [Join]
    exact Split_of_not_mem (hx a (by simp))
  | a :: b :: rest, _, hx => by
    have hj : Join (a :: b :: rest) (str ",") = a ++ comma :: Join (b :: rest) (str ",") := by
      rw [Join, show str "," = [comma] from rfl]
      simp only [List.append_assoc, List.cons_append, List.nil_append]
    rw [hj, Split_append_sep _ (hx a (by simp)),
      Split_Join_comma (b :: rest) (by simp) (fun x h => hx x (List.mem_cons_of_mem _ h))]

theorem inLoop_formatInt (fieldValue : Int) (notFound : BaseError) : ∀ (cs : List Int),
    (∀ c, c ∈ cs → minInt ≤ c ∧ c ≤ maxInt) →
    validateFieldInt.inLoop fieldValue notFound (cs.map formatInt) =
      if fieldValue ∈ cs then none else some notFound
  | [], _ => by simp [validateFieldInt.inLoop]
  | c :: cs, h => by
    have hc := h c (by simp)
    rw [List.map_cons, validateFieldInt.inLoop, Atoi_formatInt hc.1 hc.2]
    simp only []
    by_cases hv : c = fieldValue
    · simp [hv]
    · have hv2 : ¬ fieldValue = c := fun e => hv e.symm
      rw [if_neg hv, inLoop_formatInt fieldValue notFound cs
        (fun x hx => h x (List.mem_cons_of_mem _ hx))]
      simp [hv2]

/-- C7: for every integer value `V` and every rule `in:c1,...,ck` (`k >= 1`)
whose candidates are integers of type `int` written in decimal, the number
evaluator reports no violation exactly when `V` is one of the candidates, and
otherwise reports the violation `value V not found in [c1 ... ck]`, the
candidates separated by one space. -/
theorem validateFieldInt_in (fieldValue : Int) (cs : List Int) (hne : cs ≠ [])
    (hr : ∀ c, c ∈ cs → minInt ≤ c ∧ c ≤ maxInt) :
    validateFieldInt fieldValue (str "in:" ++ Join (cs.map formatInt) (str ",")) =
      .ok (if fieldValue ∈ cs then none
        else some (.New (str "value " ++ formatInt fieldValue ++ str " not found in ["
          ++ Join (cs.map formatInt) (str " ") ++ str "]"))) := by
  have hcolon : colon ∉ Join (cs.map formatInt) (str ",") := by
    intro h
    rcases mem_Join _ h with h | ⟨x, hx, hc⟩
    · exact absurd h (by decide)
    · obtain ⟨c, _, rfl⟩ := List.mem_map.mp hx
      exact colon_not_mem_formatInt c hc
  have hsplit : Split (Join (cs.map formatInt) (str ",")) comma = cs.map formatInt :=
    Split_Join_comma _ (by simpa using hne) (by
      intro x hx
      obtain ⟨c, _, rfl⟩ := List.mem_map.mp hx
      exact comma_not_mem_formatInt c)
  have hs : str "in:" ++ Join (cs.map formatInt) (str ",")
      = str "in" ++ colon :: Join (cs.map formatInt) (str ",") := rfl
  have hmsg : str "value " ++ formatInt fieldValue ++ str " not found in "
      ++ formatStrings (cs.map formatInt)
      = str "value " ++ formatInt fieldValue ++ str " not found in ["
        ++ Join (cs.map formatInt) (str " ") ++ str "]" := by
    rw [formatStrings, show str " not found in [" = str " not found in " ++ str "[" from rfl]
    simp only [List.append_assoc]
  rw [hs, validateFieldInt]
  simp only [Split_check (by decide : colon ∉ str "in") hcolon, index_zero_cons,
    index_one_cons, if_true, if_neg (by decide : ¬ str "in" = str "min"),
    if_neg (by decide : ¬ str "in" = str "max"), hsplit, inLoop_formatInt _ _ cs hr, hmsg]

/-- C7, the scenario of the specification: rule `in:1,2,3` accepts 2 and reports
`value 9 not found in [1 2 3]` on 9. -/
theorem validateFieldInt_in_witness :
    ([1, 2, 3] : List Int) ≠ [] ∧ (∀ c, c ∈ ([1, 2, 3] : List Int) → minInt ≤ c ∧ c ≤ maxInt)
    ∧ validateFieldInt 2 (str "in:1,2,3") = .ok none
    ∧ validateFieldInt 9 (str "in:1,2,3") =
        .ok (some (.New (str "value 9 not found in [1 2 3]"))) :=
  ⟨by decide, by decide,
    validateFieldInt_in 2 [1, 2, 3] (by decide) (by decide),
    validateFieldInt_in 9 [1, 2, 3] (by decide) (by decide)⟩

/-- C8: for every integer value `v` and every integer `N` of type `int`, written
in decimal, the number evaluator on rule `min:N` reports a violation exactly
when `v < N`, reading `field value v less than expected min N`, and on rule
`max:N` exactly when `v > N`, reading `field value v greater than expected max
N`. -/
theorem validateFieldInt_min_max (fieldValue N : Int) (hmin : minInt ≤ N) (hmax : N ≤ maxInt) :
    validateFieldInt fieldValue (str "min:" ++ formatInt N) =
        .ok (if fieldValue < N then
            some (.New (str "field value " ++ formatInt fieldValue
              ++ str " less than expected min " ++ formatInt N))
          else none)
    ∧ validateFieldInt fieldValue (str "max:" ++ formatInt N) =
        .ok (if fieldValue > N then
            some (.New (str "field value " ++ formatInt fieldValue
              ++ str " greater than expected max " ++ formatInt N))
          else none) := by
  have hA := Atoi_formatInt hmin hmax
  have hc := colon_not_mem_formatInt N
  constructor
  · rw [show str "min:" ++ formatInt N = str "min" ++ colon :: formatInt N from rfl,
      validateFieldInt_min fieldValue _ [formatInt N]
        (Split_check (by decide : colon ∉ str "min") hc) _ rfl, hA]
    by_cases h : fieldValue < N <;> simp [h]
  · rw [show str "max:" ++ formatInt N = str "max" ++ colon :: formatInt N from rfl,
      validateFieldInt_max fieldValue _ [formatInt N]
        (Split_check (by decide : colon ∉ str "max") hc) _ rfl, hA]
    by_cases h : fieldValue > N <;> simp [h]

/-- C8 on the bound 5: value 3 is below `min:5` and within `max:5`, value 7 is
within `min:5` and above `max:5`. -/
theorem validateFieldInt_min_max_witness :
    minInt ≤ 5 ∧ 5 ≤ maxInt
    ∧ validateFieldInt 3 (str "min:5") =
        .ok (some (.New (str "field value 3 less than expected min 5")))
    ∧ validateFieldInt 3 (str "max:5") = .ok none
    ∧ validateFieldInt 7 (str "min:5") = .ok none
    ∧ validateFieldInt 7 (str "max:5") =
        .ok (some (.New (str "field value 7 greater than expected max 5"))) :=
  ⟨by decide, by decide,
    (validateFieldInt_min_max 3 5 (by decide) (by decide)).1,
    (validateFieldInt_min_max 3 5 (by decide) (by decide)).2,
    (validateFieldInt_min_max 7 5 (by decide) (by decide)).1,
    (validateFieldInt_min_max 7 5 (by decide) (by decide)).2⟩

/-! ## The entry point -/

theorem loop_passable : ∀ (fields rest : List (StructField × Value)) (errs : ValidationErrors),
    (∀ f, f ∈ fields → passable f) →
    Validate.loop (fields ++ rest) errs = Validate.loop rest (errs ++ reportedViolations fields)
  | [], rest, errs, _ => by simp [reportedViolations]
  | (ft, fv) :: fields, rest, errs, h => by
    have ih := fun errs2 => loop_passable fields rest errs2
      (fun f hf => h f (List.mem_cons_of_mem _ hf))
    have hf := h (ft, fv) (by simp)
    rw [List.cons_append, Validate.loop]
    by_cases ht : ft.validateTag = []
    · rw [if_pos ht, ih]
      simp [reportedViolations, ht]
    · rcases hf with hf | ⟨hexp, hret⟩
      · exact absurd hf ht
      · simp only at hexp hret
        rw [if_neg ht, hexp]
        simp only [Bool.not_true, Bool.false_eq_true, if_false]
        cases hr : fieldErr fv ft.validateTag with
        | error p => rw [hr] at hret; simp [returns] at hret
        | ok r =>
          cases r with
          | none =>
            simp only [ih]
            simp [reportedViolations, ht, hr]
          | some e =>
            simp only [ih]
            simp [reportedViolations, ht, hr]

theorem loop_passable_all (fields : List (StructField × Value))
    (h : ∀ f, f ∈ fields → passable f) :
    Validate.loop fields [] = .ok (reportedViolations fields) := by
  have := loop_passable fields [] [] h
  simpa [Validate.loop] using this

theorem reportedViolations_untagged (fields : List (StructField × Value))
    (h : ∀ f, f ∈ fields → f.1.validateTag = []) : reportedViolations fields = [] := by
  rw [reportedViolations, List.filterMap_eq_nil_iff]
  intro f hf
  simp [h f hf]

/-- C1: for every record whose rule-bearing fields are all exported, of a
supported kind, and evaluated without a fatal fault, `Validate` returns exactly
the violations reported by the per-field evaluators, in field declaration order
(so it goes on past a failing field, and a field with an empty rule string
contributes nothing, whatever its kind or visibility); the result is nil
exactly when there is no such violation, in particular for a record without
rule-bearing fields. -/
theorem Validate_collects (fields : List (StructField × Value))
    (h : ∀ f, f ∈ fields → passable f) :
    Validate (.Struct fields) =
        .ok (if reportedViolations fields = [] then none
          else some (.errs (reportedViolations fields)))
    ∧ (Validate (.Struct fields) = .ok none ↔ reportedViolations fields = [])
    ∧ ((∀ f, f ∈ fields → f.1.validateTag = []) → Validate (.Struct fields) = .ok none) := by
  have hv : Validate (.Struct fields) =
      .ok (if reportedViolations fields = [] then none
        else some (.errs (reportedViolations fields))) := by
    rw [Validate, loop_passable_all fields h]
    cases hr : reportedViolations fields with
    | nil => simp
    | cons e es => simp
  refine ⟨hv, ?_, ?_⟩
  · rw [hv]
    by_cases hr : reportedViolations fields = [] <;> simp [hr]
  · intro hu
    rw [hv, if_pos (reportedViolations_untagged fields hu)]

/-- C1 on a sample record: the failing text field and the failing number field
are both reported, in declaration order, past the unexported field without rule
and the passing field. -/
theorem Validate_collects_witness :
    (∀ f, f ∈ sampleRecord → passable f)
    ∧ Validate (.Struct sampleRecord) =
        .ok (some (.errs [
          ValidationError.mk (.New (str "expected string of length 4, go string of length 3")),
          ValidationError.mk (.New (str "value 9 not found in [1 2 3]"))])) :=
  ⟨by decide, (Validate_collects sampleRecord (by decide)).1⟩

/-- C2: for every input value whose kind is not `Struct`, a pointer to a struct
included, `Validate` returns exactly `ErrNotStruct`: a plain error, not a
collection, whatever the value holds. -/
theorem Validate_not_struct (v : Value) (h : v.Kind ≠ Kind.Struct) :
    Validate v = .ok (some (.base .ErrNotStruct)) := by
  cases v with
  | Struct fields => exact absurd rfl h
  | String s => rfl
  | Int n => rfl
  | Slice elems => rfl
  | Pointer elem => rfl
  | Other k => rfl

/-- C2 on pointers to structs, one of them to a record whose evaluation would
raise a fatal fault, and on the nil interface. -/
theorem Validate_not_struct_witness :
    (Value.Pointer (some (.Struct faultyRecord))).Kind ≠ Kind.Struct
    ∧ Validate (.Pointer (some (.Struct faultyRecord))) = .ok (some (.base .ErrNotStruct))
    ∧ Validate (.Pointer (some (.Struct sampleRecord))) = .ok (some (.base .ErrNotStruct))
    ∧ Validate (.Other .Invalid) = .ok (some (.base .ErrNotStruct)) :=
  ⟨by decide, Validate_not_struct _ (by decide), Validate_not_struct _ (by decide),
    Validate_not_struct _ (by decide)⟩

theorem fieldErr_malformed_bound (v : Int) (tag arg : GoString)
    (htag : tag = str "min:" ++ arg ∨ tag = str "max:" ++ arg)
    (hcolon : colon ∉ arg) (hbad : Atoi arg = none) :
    fieldErr (.Int v) tag = .ok (some .ErrInvalidValidatorSyntax) := by
  rcases htag with rfl | rfl
  · rw [fieldErr, show str "min:" ++ arg = str "min" ++ colon :: arg from rfl,
      validateFieldInt_min v _ [arg] (Split_check (by decide : colon ∉ str "min") hcolon) _ rfl,
      hbad]
  · rw [fieldErr, show str "max:" ++ arg = str "max" ++ colon :: arg from rfl,
      validateFieldInt_max v _ [arg] (Split_check (by decide : colon ∉ str "max") hcolon) _ rfl,
      hbad]

theorem reportedViolations_append (xs ys : List (StructField × Value)) :
    reportedViolations (xs ++ ys) = reportedViolations xs ++ reportedViolations ys := by
  simp [reportedViolations, List.filterMap_append]

theorem tag_ne_nil {tag arg : GoString}
    (htag : tag = str "min:" ++ arg ∨ tag = str "max:" ++ arg) : tag ≠ [] := by
  rcases htag with rfl | rfl
  · rw [show str "min:" = 109 :: str "in:" from rfl]
    simp
  · rw [show str "max:" = 109 :: str "ax:" from rfl]
    simp

/-- C9, refuted as stated for every record, on three records that hold an
exported number field with a min argument that is not an integer. After an
unexported rule-bearing field the field is never evaluated and the result holds
no `ErrInvalidValidatorSyntax`; before a field of an unsupported kind the
call ends in a fatal fault instead of an aggregated result; and with rule
`min:5:abc`, whose argument `5:abc` is not an integer, value 7 passes. -/
theorem Validate_malformed_bound_counterexample :
    Validate (.Struct [unexportedField, malformedField]) =
        .ok (some (.errs [ValidationError.mk .ErrValidateForUnexportedFields]))
    ∧ Validate (.Struct (malformedField :: faultyRecord)) =
        .error (.message (str "unsupported field type float64"))
    ∧ (Atoi (str "5:abc") = none
      ∧ Validate (.Struct [(StructField.mk true (str "min:5:abc"), .Int 7)]) = .ok none)
    ∧ ¬ (∀ (pre post : List (StructField × Value)) (v : Int) (arg : GoString),
        Atoi arg = none →
        ∃ errs, Validate (.Struct (pre ++ (StructField.mk true (str "min:" ++ arg), .Int v) :: post))
            = .ok (some (.errs errs))
          ∧ ValidationError.mk .ErrInvalidValidatorSyntax ∈ errs) := by
  refine ⟨by decide, by decide, by decide, fun h => ?_⟩
  obtain ⟨errs, h1, h2⟩ := h [unexportedField] [] 0 (str "abc") (by decide)
  have h3 : Validate (.Struct ([unexportedField]
      ++ (StructField.mk true (str "min:" ++ str "abc"), .Int 0) :: []))
      = .ok (some (.errs [ValidationError.mk .ErrValidateForUnexportedFields])) := by decide
  rw [h3] at h1
  simp only [Except.ok.injEq, Option.some.injEq, Error.errs.injEq] at h1
  subst h1
  revert h2
  decide

/-- C9, amended: an exported number field with rule `min:ARG` or `max:ARG`, where
`ARG` holds no colon and does not parse as an integer, is evaluated to
`ErrInvalidValidatorSyntax`, an ordinary violation. In every record whose fields
declared before it are passable (without rule, or exported and evaluated without
fatal fault), the loop of `Validate` appends this violation to those of the
earlier fields and goes on with the remaining fields; when these are passable
too, `Validate` returns the aggregated result: the earlier violations,
`ErrInvalidValidatorSyntax`, then the later violations. -/
theorem Validate_malformed_bound (pre post : List (StructField × Value)) (f : StructField)
    (v : Int) (arg : GoString) (hexp : f.IsExported = true)
    (htag : f.validateTag = str "min:" ++ arg ∨ f.validateTag = str "max:" ++ arg)
    (hcolon : colon ∉ arg) (hbad : Atoi arg = none)
    (hpre : ∀ g, g ∈ pre → passable g) :
    fieldErr (.Int v) f.validateTag = .ok (some .ErrInvalidValidatorSyntax)
    ∧ Validate.loop (pre ++ (f, .Int v) :: post) [] =
        Validate.loop post
          (reportedViolations pre ++ [ValidationError.mk .ErrInvalidValidatorSyntax])
    ∧ ((∀ g, g ∈ post → passable g) →
        Validate (.Struct (pre ++ (f, .Int v) :: post)) =
          .ok (some (.errs (reportedViolations pre
            ++ ValidationError.mk .ErrInvalidValidatorSyntax :: reportedViolations post)))) := by
  have hf := fieldErr_malformed_bound v f.validateTag arg htag hcolon hbad
  have hne := tag_ne_nil htag
  have hpass : passable (f, Value.Int v) := Or.inr ⟨hexp, by simp only [hf, returns]⟩
  have hrep : reportedViolations [(f, Value.Int v)]
      = [ValidationError.mk .ErrInvalidValidatorSyntax] := by
    simp [reportedViolations, hne, hf]
  have hall : ∀ g, g ∈ pre ++ [(f, Value.Int v)] → passable g := by
    intro g hg
    rcases List.mem_append.mp hg with hg | hg
    · exact hpre g hg
    · rw [List.mem_singleton.mp hg]; exact hpass
  have hloop := loop_passable (pre ++ [(f, Value.Int v)]) post [] hall
  rw [reportedViolations_append, hrep] at hloop
  simp only [List.append_assoc, List.singleton_append, List.nil_append] at hloop
  refine ⟨hf, by simpa using hloop, fun hpost => ?_⟩
  have hp := loop_passable post [] (reportedViolations pre
    ++ [ValidationError.mk .ErrInvalidValidatorSyntax]) hpost
  simp only [List.append_nil, Validate.loop] at hp
  rw [Validate, hloop, hp]
  simp

/-- C9 on a record: the malformed field stands between the fields of the sample
record, and its `ErrInvalidValidatorSyntax` is reported between their
violations. -/
theorem Validate_malformed_bound_witness :
    (StructField.mk true (str "min:abc")).IsExported = true
    ∧ colon ∉ str "abc" ∧ Atoi (str "abc") = none
    ∧ (∀ g, g ∈ sampleRecord.take 2 → passable g)
    ∧ (∀ g, g ∈ sampleRecord.drop 2 → passable g)
    ∧ Validate (.Struct (sampleRecord.take 2
          ++ (StructField.mk true (str "min:abc"), .Int 0) :: sampleRecord.drop 2)) =
        .ok (some (.errs [
          ValidationError.mk (.New (str "expected string of length 4, go string of length 3")),
          ValidationError.mk .ErrInvalidValidatorSyntax,
          ValidationError.mk (.New (str "value 9 not found in [1 2 3]"))])) :=
  ⟨rfl, by decide, by decide, by decide, by decide,
    (Validate_malformed_bound (sampleRecord.take 2) (sampleRecord.drop 2)
      (StructField.mk true (str "min:abc")) 0 (str "abc") rfl (Or.inl rfl) (by decide)
      (by decide) (by decide)).2.2 (by decide)⟩

/-- C10, refuted as stated: in a record with a failing exported text field
declared before an unexported rule-bearing field, the earlier field is
evaluated and its violation is part of the result, which is neither the plain
error `ErrValidateForUnexportedFields` nor a collection that holds it alone. -/
theorem Validate_unexported_counterexample :
    Validate (.Struct [(StructField.mk true (str "len:4"), .String (str "Bob")),
        unexportedField]) =
      .ok (some (.errs [
        ValidationError.mk (.New (str "expected string of length 4, go string of length 3")),
        ValidationError.mk .ErrValidateForUnexportedFields]))
    ∧ ¬ (∀ (fields : List (StructField × Value)),
        (∃ f, f ∈ fields ∧ f.1.validateTag ≠ [] ∧ f.1.IsExported = false) →
        Validate (.Struct fields) = .ok (some (.base .ErrValidateForUnexportedFields))
        ∨ Validate (.Struct fields) =
            .ok (some (.errs [ValidationError.mk .ErrValidateForUnexportedFields]))) := by
  refine ⟨by decide, fun h => ?_⟩
  have h1 := h [(StructField.mk true (str "len:4"), .String (str "Bob")), unexportedField]
    ⟨unexportedField, by simp, by decide, rfl⟩
  revert h1
  decide

/-- C10, amended: if a record has a rule-bearing field that is not exported,
`Validate` stops at the first such field, so no field declared after it is
evaluated, but the fields declared before it are evaluated as usual: provided
they raise no fatal fault, `Validate` returns the collection of their
violations, in declaration order, followed by `ErrValidateForUnexportedFields`
as its last entry. -/
theorem Validate_unexported (pre post : List (StructField × Value)) (f : StructField)
    (v : Value) (hrule : f.validateTag ≠ []) (hunexp : f.IsExported = false)
    (hpre : ∀ g, g ∈ pre → passable g) :
    Validate (.Struct (pre ++ (f, v) :: post)) =
      .ok (some (.errs (reportedViolations pre
        ++ [ValidationError.mk .ErrValidateForUnexportedFields]))) := by
  rw [Validate, loop_passable pre ((f, v) :: post) [] hpre, Validate.loop, if_neg hrule, hunexp]
  simp

/-- C10 on a record: the unexported field stands after the fields of the sample
record, whose two violations come first, and before a field whose evaluation
would raise a fatal fault. -/
theorem Validate_unexported_witness :
    unexportedField.1.validateTag ≠ [] ∧ unexportedField.1.IsExported = false
    ∧ (∀ g, g ∈ sampleRecord → passable g)
    ∧ Validate (.Struct (sampleRecord ++ (unexportedField.1, unexportedField.2) :: faultyRecord)) =
        .ok (some (.errs [
          ValidationError.mk (.New (str "expected string of length 4, go string of length 3")),
          ValidationError.mk (.New (str "value 9 not found in [1 2 3]")),
          ValidationError.mk .ErrValidateForUnexportedFields])) :=
  ⟨by decide, rfl, by decide,
    Validate_unexported sampleRecord faultyRecord unexportedField.1 unexportedField.2
      (by decide) rfl (by decide)⟩

/-! ## Short-circuit on an unexported field -/

theorem loop_frame_after_unexported : ∀ (pre : List (StructField × Value)) (f : StructField)
    (v : Value) (post post2 : List (StructField × Value)) (errs : ValidationErrors),
    f.validateTag ≠ [] → f.IsExported = false →
    Validate.loop (pre ++ (f, v) :: post) errs = Validate.loop (pre ++ (f, v) :: post2) errs
  | [], f, v, post, post2, errs, hr, hu => by
    simp [Validate.loop, hr, hu]
  | (ft, fv) :: pre, f, v, post, post2, errs, hr, hu => by
    have ih := fun errs2 => loop_frame_after_unexported pre f v post post2 errs2 hr hu
    rw [List.cons_append, List.cons_append]
    simp only [Validate.loop, ih]

/-- C11: processing stops at the first rule-bearing unexported field: for every
record that holds a rule-bearing unexported field, the result of `Validate` is
the same whatever fields are declared after that field; their values, kinds
and rule strings are never examined, also when they would raise a fatal
fault. -/
theorem Validate_frame_after_unexported (pre post post2 : List (StructField × Value))
    (f : StructField) (v : Value) (hrule : f.validateTag ≠ []) (hunexp : f.IsExported = false) :
    Validate (.Struct (pre ++ (f, v) :: post)) = Validate (.Struct (pre ++ (f, v) :: post2)) := by
  simp only [Validate, loop_frame_after_unexported pre f v post post2 [] hrule hunexp]

/-- C11 on a record: after the unexported field, a field whose evaluation would
raise a fatal fault changes nothing, and neither does the malformed field. -/
theorem Validate_frame_after_unexported_witness :
    unexportedField.1.validateTag ≠ [] ∧ unexportedField.1.IsExported = false
    ∧ Validate (.Struct (sampleRecord ++ (unexportedField.1, unexportedField.2) :: faultyRecord))
      = Validate (.Struct (sampleRecord ++ (unexportedField.1, unexportedField.2)
          :: [malformedField])) :=
  ⟨by decide, rfl,
    Validate_frame_after_unexported sampleRecord faultyRecord [malformedField] unexportedField.1
      unexportedField.2 (by decide) rfl⟩

/-! ## The list evaluator -/

theorem validateFieldSlice_cons (x : Value) (rest : List Value) (tagValue : GoString) :
    validateFieldSlice (x :: rest) tagValue =
      match sliceElemErr x tagValue with
      | .error p => .error p
      | .ok (some e) => .ok (some e)
      | .ok none => validateFieldSlice rest tagValue := by
  cases x <;> rfl

theorem validateFieldSlice_append_pass (tagValue : GoString) : ∀ (pre rest : List Value),
    (∀ y, y ∈ pre → sliceElemErr y tagValue = .ok none) →
    validateFieldSlice (pre ++ rest) tagValue = validateFieldSlice rest tagValue
  | [], rest, _ => rfl
  | y :: pre, rest, h => by
    rw [List.cons_append, validateFieldSlice_cons, h y (by simp)]
    exact validateFieldSlice_append_pass tagValue pre rest
      (fun z hz => h z (List.mem_cons_of_mem _ hz))

/-- C12: for every list and every rule string, when the elements before an
element `x` all pass and the element evaluator reports a violation for `x` (so
`x` is the first failing element), the list evaluator returns that violation
and nothing else, whatever elements come after `x`, also elements that would
fail or raise a fatal fault; and a list whose elements all pass gets no
violation. A text element is evaluated by the text evaluator and an integer
element by the number evaluator. -/
theorem validateFieldSlice_first_failure (pre post : List Value) (x : Value)
    (tagValue : GoString) (hpre : ∀ y, y ∈ pre → sliceElemErr y tagValue = .ok none) :
    (∀ e, sliceElemErr x tagValue = .ok (some e) →
      validateFieldSlice (pre ++ x :: post) tagValue = .ok (some e)
      ∧ ∀ post2, validateFieldSlice (pre ++ x :: post2) tagValue
          = validateFieldSlice (pre ++ x :: post) tagValue)
    ∧ validateFieldSlice pre tagValue = .ok none
    ∧ (∀ s, sliceElemErr (.String s) tagValue = validateFieldString s tagValue)
    ∧ (∀ n, sliceElemErr (.Int n) tagValue = validateFieldInt n tagValue) := by
  have key : ∀ (e : BaseError) (rest : List Value), sliceElemErr x tagValue = .ok (some e) →
      validateFieldSlice (pre ++ x :: rest) tagValue = .ok (some e) := by
    intro e rest hx
    rw [validateFieldSlice_append_pass tagValue pre _ hpre, validateFieldSlice_cons, hx]
  refine ⟨fun e hx => ⟨key e post hx, fun post2 => ?_⟩, ?_, fun _ => rfl, fun _ => rfl⟩
  · rw [key e post hx, key e post2 hx]
  · have := validateFieldSlice_append_pass tagValue pre [] hpre
    rw [List.append_nil] at this
    rw [this, validateFieldSlice]

/-- C12 on the sample names with rule `len:4`: `Anna` passes, `Bob` is the first
failing element and its violation is the result; the two elements after it are
not inspected. -/
theorem validateFieldSlice_first_failure_witness :
    (∀ y, y ∈ [Value.String (str "Anna")] → sliceElemErr y (str "len:4") = .ok none)
    ∧ validateFieldSlice sampleNames (str "len:4") =
        .ok (some (.New (str "expected string of length 4, go string of length 3")))
    ∧ sliceElemErr (.Int 5) (str "len:4") =
        .error (.message (str "unsupported validator type len")) :=
  ⟨by simp; decide,
    ((validateFieldSlice_first_failure [.String (str "Anna")]
      [.String (str "Al"), .Int 5] (.String (str "Bob")) (str "len:4")
      (by simp; decide)).1 _ (by decide)).1,
    by decide⟩

/-! ## Candidate lists and colons -/

/-- C13: for every text value, the empty string included, the text evaluator on
rule `in:`, whose argument is empty, reports the not-found violation `value V
not found in []`, never success. -/
theorem validateFieldString_in_empty (fieldValue : GoString) :
    validateFieldString fieldValue (str "in:") =
      .ok (some (.New (str "value " ++ fieldValue ++ str " not found in []")))
    ∧ validateFieldString [] (str "in:") = .ok (some (.New (str "value  not found in []"))) := by
  have h : validateFieldString fieldValue (str "in:") =
      .ok (some (.New (str "value " ++ fieldValue ++ str " not found in []"))) := by
    have h1 : Split (str "in:") comma = [str "in:"] := rfl
    have h2 : Split (str "in:") colon = [str "in", []] := rfl
    have h3 : formatStrings [] = str "[]" := rfl
    have h4 : str " not found in []" = str " not found in " ++ str "[]" := rfl
    rw [validateFieldString, h1, validateFieldString.loop]
    simp only [h2, index_zero_cons, index_one_cons, if_neg (by decide : ¬ str "in" = str "len"),
      if_neg (by decide : ¬ str "in" = str "min"), if_neg (by decide : ¬ str "in" = str "max"),
      if_true, len, List.length_nil, Nat.cast_zero, List.not_mem_nil, if_false, h3, h4,
      List.append_assoc]
  exact ⟨h, by decide⟩

theorem validateFieldInt_candidates (fieldValue : Int) (cands : List GoString)
    (hne : cands ≠ []) (hcomma : ∀ x, x ∈ cands → comma ∉ x)
    (hcolon : ∀ x, x ∈ cands → colon ∉ x) :
    validateFieldInt fieldValue (str "in:" ++ Join cands (str ",")) =
      .ok (validateFieldInt.inLoop fieldValue
        (.New (str "value " ++ formatInt fieldValue ++ str " not found in "
          ++ formatStrings cands)) cands) := by
  have hc : colon ∉ Join cands (str ",") := by
    intro h
    rcases mem_Join _ h with h | ⟨x, hx, hc⟩
    · exact absurd h (by decide)
    · exact hcolon x hx hc
  have hs : str "in:" ++ Join cands (str ",") = str "in" ++ colon :: Join cands (str ",") := rfl
  rw [hs, validateFieldInt]
  simp only [Split_check (by decide : colon ∉ str "in") hc, index_zero_cons,
    index_one_cons, if_true, if_neg (by decide : ¬ str "in" = str "min"),
    if_neg (by decide : ¬ str "in" = str "max"), Split_Join_comma cands hne hcomma]

theorem inLoop_malformed (fieldValue : Int) (notFound : BaseError) (bad : GoString)
    (rest : List GoString) (hbad : Atoi bad = none) : ∀ (cs : List Int),
    (∀ c, c ∈ cs → minInt ≤ c ∧ c ≤ maxInt) →
    validateFieldInt.inLoop fieldValue notFound (cs.map formatInt ++ bad :: rest) =
      if fieldValue ∈ cs then none else some .ErrInvalidValidatorSyntax
  | [], _ => by simp [validateFieldInt.inLoop, hbad]
  | c :: cs, h => by
    have hc := h c (by simp)
    rw [List.map_cons, List.cons_append, validateFieldInt.inLoop, Atoi_formatInt hc.1 hc.2]
    simp only []
    by_cases hv : c = fieldValue
    · simp [hv]
    · have hv2 : ¬ fieldValue = c := fun e => hv e.symm
      rw [if_neg hv, inLoop_malformed fieldValue notFound bad rest hbad cs
        (fun x hx => h x (List.mem_cons_of_mem _ hx))]
      simp [hv2]

/-- C14, refuted as stated: with rule `in:1,x`, whose second candidate is not an
integer, the value 1 equals the first candidate and passes without
`ErrInvalidValidatorSyntax`. -/
theorem validateFieldInt_malformed_candidate_counterexample :
    Atoi (str "x") = none
    ∧ validateFieldInt 1 (str "in:1,x") = .ok none
    ∧ ¬ (∀ (fieldValue : Int) (cands : List GoString),
        (∃ c, c ∈ cands ∧ Atoi c = none) →
        validateFieldInt fieldValue (str "in:" ++ Join cands (str ","))
          = .ok (some .ErrInvalidValidatorSyntax)) := by
  refine ⟨by decide, by decide, fun h => ?_⟩
  have h1 := h 1 [str "1", str "x"] ⟨str "x", by simp, by decide⟩
  revert h1
  decide

/-- C14, amended: the number evaluator parses the candidates of `in:c1,...,ck`
one by one, in order, while it compares them. When the candidates before the
first one that does not parse as an integer are the integers `cs`, the
evaluator yields `ErrInvalidValidatorSyntax` for every field value that is not
among `cs`, and no violation for a value among `cs`; the candidates after the
malformed one are never parsed. -/
theorem validateFieldInt_malformed_candidate (fieldValue : Int) (cs : List Int) (bad : GoString)
    (rest : List GoString) (hr : ∀ c, c ∈ cs → minInt ≤ c ∧ c ≤ maxInt)
    (hbad : Atoi bad = none)
    (hsep : ∀ x, x ∈ bad :: rest → comma ∉ x ∧ colon ∉ x) :
    validateFieldInt fieldValue (str "in:" ++ Join (cs.map formatInt ++ bad :: rest) (str ",")) =
      .ok (if fieldValue ∈ cs then none else some .ErrInvalidValidatorSyntax) := by
  have hall : ∀ x, x ∈ cs.map formatInt ++ bad :: rest → comma ∉ x ∧ colon ∉ x := by
    intro x hx
    rcases List.mem_append.mp hx with hx | hx
    · obtain ⟨c, _, rfl⟩ := List.mem_map.mp hx
      exact ⟨comma_not_mem_formatInt c, colon_not_mem_formatInt c⟩
    · exact hsep x hx
  rw [validateFieldInt_candidates fieldValue _ (by simp) (fun x hx => (hall x hx).1)
    (fun x hx => (hall x hx).2), inLoop_malformed fieldValue _ bad rest hbad cs hr]

/-- C14 on rule `in:1,2,x,3`: the values 1 and 2 pass, the values 3 and 9 get
`ErrInvalidValidatorSyntax`. -/
theorem validateFieldInt_malformed_candidate_witness :
    (∀ c, c ∈ ([1, 2] : List Int) → minInt ≤ c ∧ c ≤ maxInt)
    ∧ Atoi (str "x") = none
    ∧ validateFieldInt 2 (str "in:1,2,x,3") = .ok none
    ∧ validateFieldInt 3 (str "in:1,2,x,3") = .ok (some .ErrInvalidValidatorSyntax)
    ∧ validateFieldInt 9 (str "in:1,2,x,3") = .ok (some .ErrInvalidValidatorSyntax) :=
  ⟨by decide, by decide,
    validateFieldInt_malformed_candidate 2 [1, 2] (str "x") [str "3"] (by decide) (by decide)
      (by decide),
    validateFieldInt_malformed_candidate 3 [1, 2] (str "x") [str "3"] (by decide) (by decide)
      (by decide),
    validateFieldInt_malformed_candidate 9 [1, 2] (str "x") [str "3"] (by decide) (by decide)
      (by decide)⟩

theorem Split_two_colons {name arg : GoString} (tail : GoString) (hn : colon ∉ name)
    (ha : colon ∉ arg) :
    Split (name ++ colon :: arg ++ colon :: tail) colon = name :: arg :: Split tail colon := by
  have h : name ++ colon :: arg ++ colon :: tail = name ++ colon :: (arg ++ colon :: tail) := by
    simp only [List.append_assoc, List.cons_append]
  rw [h, Split_append_sep _ hn, Split_append_sep _ ha]

/-- C15, refuted as stated: on a text field with rule `in:a:b` the value `a:b`
gets a not-found violation that lists the candidate `a`, and the value `a`
passes; the candidate is not `a:b`. -/
theorem split_first_colon_counterexample :
    validateFieldString (str "a:b") (str "in:a:b") =
        .ok (some (.New (str "value a:b not found in [a]")))
    ∧ validateFieldString (str "a") (str "in:a:b") = .ok none := by
  decide

/-- C15, amended: a check token is split on every colon, and the argument is the
text between its first and its second colon; what follows the second colon is
ignored. For every token `name:arg:tail`, `name` and `arg` without colon, the
text evaluator (with any checks left after it) and the number evaluator give the
result they give on `name:arg`. -/
theorem split_every_colon (name arg tail : GoString) (hn : colon ∉ name) (ha : colon ∉ arg) :
    (∀ (fieldValue : GoString) (rest : List GoString),
      validateFieldString.loop fieldValue ((name ++ colon :: arg ++ colon :: tail) :: rest)
        = validateFieldString.loop fieldValue ((name ++ colon :: arg) :: rest))
    ∧ (∀ fieldValue : Int,
      validateFieldInt fieldValue (name ++ colon :: arg ++ colon :: tail)
        = validateFieldInt fieldValue (name ++ colon :: arg)) := by
  have h1 := Split_two_colons tail hn ha
  have h2 := Split_check hn ha
  constructor
  · intro fieldValue rest
    simp only [validateFieldString.loop, h1, h2, index_zero_cons, index_one_cons]
  · intro fieldValue
    simp only [validateFieldInt, h1, h2, index_zero_cons, index_one_cons]

/-- C15 on the token `in:a:b`: it is evaluated as `in:a`, on a text field and on
a number field (`min:5:abc` as `min:5`). -/
theorem split_every_colon_witness :
    colon ∉ str "in" ∧ colon ∉ str "a"
    ∧ validateFieldString.loop (str "a:b") [str "in:a:b"]
        = validateFieldString.loop (str "a:b") [str "in:a"]
    ∧ validateFieldInt 7 (str "min:5:abc") = validateFieldInt 7 (str "min:5") :=
  ⟨by decide, by decide,
    (split_every_colon (str "in") (str "a") (str "b") (by decide) (by decide)).1 (str "a:b") [],
    (split_every_colon (str "min") (str "5") (str "abc") (by decide) (by decide)).2 7⟩

/-! ## Unknown check names -/

theorem passingCheck_loop {fieldValue t : GoString} (h : passingCheck fieldValue t)
    (rest : List GoString) :
    validateFieldString.loop fieldValue (t :: rest) = validateFieldString.loop fieldValue rest := by
  obtain ⟨N, ⟨h1, h2⟩, h | h | h⟩ := h
  · obtain ⟨rfl, hl⟩ := h
    rw [show str "len:" ++ formatInt N = str "len" ++ colon :: formatInt N from rfl,
      loop_len fieldValue _ rest N (colon_not_mem_formatInt N) (Atoi_formatInt h1 h2)]
    simp [hl]
  · obtain ⟨rfl, hl⟩ := h
    rw [show str "min:" ++ formatInt N = str "min" ++ colon :: formatInt N from rfl,
      loop_min fieldValue _ rest N (colon_not_mem_formatInt N) (Atoi_formatInt h1 h2)]
    simp [hl]
  · obtain ⟨rfl, hl⟩ := h
    rw [show str "max:" ++ formatInt N = str "max" ++ colon :: formatInt N from rfl,
      loop_max fieldValue _ rest N (colon_not_mem_formatInt N) (Atoi_formatInt h1 h2)]
    simp [hl]

theorem passingCheck_comma {fieldValue t : GoString} (h : passingCheck fieldValue t) :
    comma ∉ t := by
  obtain ⟨N, _, h | h | h⟩ := h
  · rw [h.1, show str "len:" ++ formatInt N = str "len" ++ colon :: formatInt N from rfl]
    exact comma_not_mem_check (by decide) N
  · rw [h.1, show str "min:" ++ formatInt N = str "min" ++ colon :: formatInt N from rfl]
    exact comma_not_mem_check (by decide) N
  · rw [h.1, show str "max:" ++ formatInt N = str "max" ++ colon :: formatInt N from rfl]
    exact comma_not_mem_check (by decide) N

theorem loop_passing (fieldValue : GoString) : ∀ (pre rest : List GoString),
    (∀ t, t ∈ pre → passingCheck fieldValue t) →
    validateFieldString.loop fieldValue (pre ++ rest) = validateFieldString.loop fieldValue rest
  | [], _, _ => rfl
  | t :: pre, rest, h => by
    rw [List.cons_append, passingCheck_loop (h t (by simp))]
    exact loop_passing fieldValue pre rest (fun u hu => h u (List.mem_cons_of_mem _ hu))

theorem loop_unknown (fieldValue tok name : GoString) (rest : List GoString)
    (hname : (Split tok colon).head? = some name)
    (hunknown : name ≠ str "len" ∧ name ≠ str "min" ∧ name ≠ str "max" ∧ name ≠ str "in") :
    validateFieldString.loop fieldValue (tok :: rest) =
      .error (.message (str "unsupported validator type " ++ name)) := by
  cases hs : Split tok colon with
  | nil => rw [hs] at hname; simp at hname
  | cons p ps =>
    rw [hs] at hname
    simp only [List.head?_cons, Option.some.injEq] at hname
    subst hname
    rw [validateFieldString.loop]
    simp only [hs, index_zero_cons, if_neg hunknown.1, if_neg hunknown.2.1,
      if_neg hunknown.2.2.1, if_neg hunknown.2.2.2]

/-- C16, refuted as stated: with rule `len:5,foo` the value `abc` gets the
ordinary violation of `len:5`, and with rule `in:a,foo` the value `a` is
accepted, also by `Validate`; the unknown name `foo` is never looked at. -/
theorem validateFieldString_unknown_check_counterexample :
    validateFieldString (str "abc") (str "len:5,foo") =
        .ok (some (.New (str "expected string of length 5, go string of length 3")))
    ∧ validateFieldString (str "a") (str "in:a,foo") = .ok none
    ∧ Validate (.Struct [(StructField.mk true (str "in:a,foo"), .String (str "a"))]) = .ok none := by
  decide

/-- C16, amended: an unknown check name is a fatal fault when the text evaluator
reaches it. For every text value and every rule string in which the checks
before a token named other than `len`, `min`, `max`, `in` are `len`, `min` or
`max` checks that pass on the value, the text evaluator ends in the fatal fault
`unsupported validator type` followed by the name; and `Validate` ends in the
same fault on every record where an exported text field with that rule string
comes after passable fields: the field is reported neither as valid nor as an
ordinary violation. -/
theorem validateFieldString_unknown_check (fieldValue : GoString) (pre : List GoString)
    (tok name : GoString) (rest : List GoString)
    (hpre : ∀ t, t ∈ pre → passingCheck fieldValue t)
    (hname : (Split tok colon).head? = some name)
    (hunknown : name ≠ str "len" ∧ name ≠ str "min" ∧ name ≠ str "max" ∧ name ≠ str "in")
    (hcomma : ∀ t, t ∈ tok :: rest → comma ∉ t) :
    validateFieldString fieldValue (Join (pre ++ tok :: rest) (str ",")) =
        .error (.message (str "unsupported validator type " ++ name))
    ∧ (∀ (before after : List (StructField × Value)) (f : StructField),
        (∀ g, g ∈ before → passable g) → f.IsExported = true →
        f.validateTag = Join (pre ++ tok :: rest) (str ",") → f.validateTag ≠ [] →
        Validate (.Struct (before ++ (f, .String fieldValue) :: after)) =
          .error (.message (str "unsupported validator type " ++ name))) := by
  have hall : ∀ t, t ∈ pre ++ tok :: rest → comma ∉ t := by
    intro t ht
    rcases List.mem_append.mp ht with ht | ht
    · exact passingCheck_comma (hpre t ht)
    · exact hcomma t ht
  have hv : validateFieldString fieldValue (Join (pre ++ tok :: rest) (str ",")) =
      .error (.message (str "unsupported validator type " ++ name)) := by
    rw [validateFieldString, Split_Join_comma _ (by simp) hall,
      loop_passing fieldValue pre _ hpre, loop_unknown fieldValue tok name rest hname hunknown]
  refine ⟨hv, fun before after f hb hexp htag hne => ?_⟩
  have hf : fieldErr (.String fieldValue) f.validateTag =
      .error (.message (str "unsupported validator type " ++ name)) := by
    rw [htag]
    exact hv
  rw [Validate, loop_passable before _ [] hb, Validate.loop, if_neg hne, hexp]
  simp [hf]

/-- C16 on rule `len:3,min:1,foo:1,max:9` and value `abc`: the first two checks
pass and the evaluator ends in the fault `unsupported validator type foo`, and
so does `Validate` on the sample record followed by such a field. -/
theorem validateFieldString_unknown_check_witness :
    (Split (str "foo:1") colon).head? = some (str "foo")
    ∧ validateFieldString (str "abc") (str "len:3,min:1,foo:1,max:9") =
        .error (.message (str "unsupported validator type foo"))
    ∧ Validate (.Struct (sampleRecord
        ++ (StructField.mk true (str "len:3,min:1,foo:1,max:9"), .String (str "abc")) :: [])) =
        .error (.message (str "unsupported validator type foo")) :=
  have h := validateFieldString_unknown_check (str "abc") [str "len:3", str "min:1"]
    (str "foo:1") (str "foo") [str "max:9"]
    (by
      intro t ht
      rcases List.mem_cons.mp ht with rfl | ht
      · exact ⟨3, ⟨by decide, by decide⟩, Or.inl ⟨rfl, by decide⟩⟩
      · rcases List.mem_cons.mp ht with rfl | ht
        · exact ⟨1, ⟨by decide, by decide⟩, Or.inr (Or.inl ⟨rfl, by decide⟩)⟩
        · simp at ht)
    (by decide) (by decide) (by decide)
  ⟨by decide, h.1,
    h.2 sampleRecord [] (StructField.mk true (str "len:3,min:1,foo:1,max:9")) (by decide) rfl
      rfl (by decide)⟩

/-! ## Rendering of the collection -/

theorem Join_eq_intercalate (sep : GoString) : ∀ (xs : List GoString),
    Join xs sep = List.intercalate sep xs
  | [] => by simp [Join, List.intercalate]
  | [a] => by simp [Join, List.intercalate]
  | a :: b :: rest => by
    have ih := Join_eq_intercalate sep (b :: rest)
    rw [Join, ih]
    simp [List.intercalate]

/-- C17: for every collection, `Error()` is the messages of its violations, in
order, with one newline between consecutive messages and none before the first
or after the last; the empty collection renders as the empty string and a
collection of one violation as its message alone. -/
theorem ValidationErrors_Error_join (v : ValidationErrors) :
    ValidationErrors.Error v = List.intercalate (str "\n") (v.map (fun e => e.Err.Error))
    ∧ ValidationErrors.Error [] = []
    ∧ (∀ e : ValidationError, ValidationErrors.Error [e] = e.Err.Error)
    ∧ (∀ (e e2 : ValidationError) (rest : ValidationErrors),
        ValidationErrors.Error (e :: e2 :: rest)
          = e.Err.Error ++ str "\n" ++ ValidationErrors.Error (e2 :: rest))
    ∧ ValidationErrors.Error [ValidationError.mk (.New (str "a")),
        ValidationError.mk .ErrInvalidValidatorSyntax] = str "a\ninvalid validator syntax" := by
  refine ⟨?_, rfl, fun e => ?_, fun e e2 rest => ?_, by decide⟩
  · rw [← Join_eq_intercalate]
    cases v with
    | nil => rfl
    | cons e es => simp [ValidationErrors.Error]
  · simp [ValidationErrors.Error, Join]
  · simp [ValidationErrors.Error, Join]

/-! ## One violation for a field -/

/-- C18, refuted as stated: the value `abc` fails both checks of rule
`len:5,max:1`, each of which reports a violation when it stands alone, and the
aggregated result of `Validate` holds one violation for the field, that of
`len:5`. -/
theorem Validate_every_failing_check_counterexample :
    validateFieldString (str "abc") (str "len:5") =
        .ok (some (.New (str "expected string of length 5, go string of length 3")))
    ∧ validateFieldString (str "abc") (str "max:1") =
        .ok (some (.New (str "string of length 3 greater than expected max 1")))
    ∧ Validate (.Struct [(StructField.mk true (str "len:5,max:1"), .String (str "abc"))]) =
        .ok (some (.errs [ValidationError.mk
          (.New (str "expected string of length 5, go string of length 3"))])) := by
  decide

theorem loop_length : ∀ (fields : List (StructField × Value)) (errs out : ValidationErrors),
    Validate.loop fields errs = .ok out → out.length ≤ errs.length + fields.length
  | [], errs, out, h => by
    simp only [Validate.loop, Except.ok.injEq] at h
    simp [← h]
  | (ft, fv) :: fields, errs, out, h => by
    rw [Validate.loop] at h
    split at h
    · have := loop_length fields errs out h
      simp only [List.length_cons]
      omega
    · split at h
      · simp only [Except.ok.injEq] at h
        simp [← h]
      · split at h
        · simp at h
        · have := loop_length fields _ out h
          simp only [List.length_append, List.length_cons, List.length_nil] at this ⊢
          omega
        · have := loop_length fields errs out h
          simp only [List.length_cons]
          omega

/-- C18, amended: for a text field only the first failing check of the rule
string contributes a violation. For every text value and all integers `N`,
`M` of type `int`, when the value fails `len:N` the text evaluator on rule
`len:N,max:M` returns the violation of `len:N` alone, whether or not `max:M`
fails too, and `Validate` on the record of one exported field with that rule
returns the collection of that one violation; and for every record the
collection never holds more violations than the record has fields. -/
theorem Validate_first_failing_check (fieldValue : GoString) (N M : Int)
    (hN : minInt ≤ N ∧ N ≤ maxInt) (hfail : len fieldValue ≠ N) :
    validateFieldString fieldValue (str "len:" ++ formatInt N ++ str ",max:" ++ formatInt M) =
        .ok (some (.New (str "expected string of length " ++ formatInt N
          ++ str ", go string of length " ++ formatInt (len fieldValue))))
    ∧ Validate (.Struct [(StructField.mk true
          (str "len:" ++ formatInt N ++ str ",max:" ++ formatInt M), .String fieldValue)]) =
        .ok (some (.errs [ValidationError.mk (.New (str "expected string of length "
          ++ formatInt N ++ str ", go string of length " ++ formatInt (len fieldValue)))]))
    ∧ (∀ (fields : List (StructField × Value)) (errs : ValidationErrors),
        Validate (.Struct fields) = .ok (some (.errs errs)) → errs.length ≤ fields.length) := by
  have hs : str "len:" ++ formatInt N ++ str ",max:" ++ formatInt M
      = (str "len" ++ colon :: formatInt N) ++ comma :: (str "max" ++ colon :: formatInt M) := by
    have h1 : str "len:" = str "len" ++ [colon] := rfl
    have h2 : str ",max:" = comma :: (str "max" ++ [colon]) := rfl
    rw [h1, h2]
    simp only [List.append_assoc, List.cons_append, List.nil_append]
  have hv : validateFieldString fieldValue
      (str "len:" ++ formatInt N ++ str ",max:" ++ formatInt M) =
      .ok (some (.New (str "expected string of length " ++ formatInt N
        ++ str ", go string of length " ++ formatInt (len fieldValue)))) := by
    rw [validateFieldString, hs, Split_append_sep _ (comma_not_mem_check (by decide) N),
      loop_len fieldValue _ _ N (colon_not_mem_formatInt N) (Atoi_formatInt hN.1 hN.2),
      if_pos hfail]
  have hne : str "len:" ++ formatInt N ++ str ",max:" ++ formatInt M ≠ [] := by
    rw [hs, show str "len" = 108 :: str "en" from rfl]
    simp
  refine ⟨hv, ?_, fun fields errs h => ?_⟩
  · rw [Validate, Validate.loop]
    simp only [if_neg hne, Bool.not_true, Bool.false_eq_true, if_false, fieldErr, hv]
    simp [Validate.loop]
  · rw [Validate] at h
    cases hl : Validate.loop fields [] with
    | error p => simp [hl] at h
    | ok out =>
      have hb := loop_length fields [] out hl
      rw [hl] at h
      simp only at h
      split at h
      · simp only [Except.ok.injEq, Option.some.injEq, Error.errs.injEq] at h
        subst h
        simpa using hb
      · simp at h

/-- C18 on the value `abc` and rule `len:5,max:1`: both checks fail and the one
violation is that of `len:5`. -/
theorem Validate_first_failing_check_witness :
    (minInt ≤ 5 ∧ 5 ≤ maxInt) ∧ len (str "abc") ≠ 5
    ∧ validateFieldString (str "abc") (str "len:5,max:1") =
        .ok (some (.New (str "expected string of length 5, go string of length 3"))) :=
  ⟨by decide, by decide,
    (Validate_first_failing_check (str "abc") 5 1 (by decide) (by decide)).1⟩

/-! ## Checks without argument -/

/-- C19, the code on the failing inputs: a check that omits its colon and
argument makes the text evaluator and the number evaluator end in the run-time
fault of an index out of range (index 1, length 1), and `Validate` with them. -/
theorem missing_argument_index_fault :
    validateFieldString (str "abc") (str "len") = .error (.indexOutOfRange 1 1)
    ∧ validateFieldString (str "abc") (str "in") = .error (.indexOutOfRange 1 1)
    ∧ validateFieldInt 5 (str "min") = .error (.indexOutOfRange 1 1)
    ∧ Validate (.Struct [(StructField.mk true (str "len"), .String (str "abc"))]) =
        .error (.indexOutOfRange 1 1) := by
  decide

/-! ## Lists of other elements -/

/-- C20: a list whose elements are neither strings nor `int`s, such as a list of
floats or of records, and likewise the empty list, is accepted silently: for
every rule string, also with an unknown check name or a malformed argument, the
list evaluator returns no violation and raises no fault, the switch of
`Validate` on the field raises no `unsupported field type` fault, and
`Validate` on the record of that one exported field returns nil. -/
theorem validateFieldSlice_other_elements (elems : List Value) (tagValue : GoString)
    (h : ∀ e, e ∈ elems → e.Kind ≠ Kind.String ∧ e.Kind ≠ Kind.Int) :
    validateFieldSlice elems tagValue = .ok none
    ∧ fieldErr (.Slice elems) tagValue = .ok none
    ∧ Validate (.Struct [(StructField.mk true tagValue, .Slice elems)]) = .ok none
    ∧ validateFieldSlice [] tagValue = .ok none := by
  have hpass : ∀ e, e ∈ elems → sliceElemErr e tagValue = .ok none := by
    intro e he
    have hk := h e he
    cases e with
    | String s => exact absurd rfl hk.1
    | Int n => exact absurd rfl hk.2
    | Slice xs => rfl
    | Struct fs => rfl
    | Pointer t => rfl
    | Other k => rfl
  have hv : validateFieldSlice elems tagValue = .ok none := by
    have := validateFieldSlice_append_pass tagValue elems [] hpass
    rw [List.append_nil] at this
    rw [this, validateFieldSlice]
  refine ⟨hv, hv, ?_, rfl⟩
  rw [Validate, Validate.loop]
  by_cases ht : tagValue = []
  · simp [ht, Validate.loop]
  · simp only [if_neg ht, Bool.not_true, Bool.false_eq_true, if_false, fieldErr, hv]
    simp [Validate.loop]

/-- C20 on a list of two floats and a record, with an unknown check name and
with a malformed argument. -/
theorem validateFieldSlice_other_elements_witness :
    (∀ e, e ∈ [Value.Other .Float64, Value.Other .Float64, Value.Struct sampleRecord] →
      e.Kind ≠ Kind.String ∧ e.Kind ≠ Kind.Int)
    ∧ validateFieldSlice [.Other .Float64, .Other .Float64, .Struct sampleRecord]
        (str "foo:1") = .ok none
    ∧ validateFieldSlice [.Other .Float64, .Other .Float64, .Struct sampleRecord]
        (str "min:abc") = .ok none :=
  have h : ∀ e, e ∈ [Value.Other .Float64, Value.Other .Float64, Value.Struct sampleRecord] →
      e.Kind ≠ Kind.String ∧ e.Kind ≠ Kind.Int := by
    intro e he
    simp only [List.mem_cons, List.mem_singleton, List.mem_nil_iff, or_false] at he
    rcases he with rfl | rfl | rfl <;> exact ⟨by decide, by decide⟩
  ⟨h, (validateFieldSlice_other_elements _ (str "foo:1") h).1,
    (validateFieldSlice_other_elements _ (str "min:abc") h).1⟩

end Validator
